import Mathlib

/-!
Verification development for the InferFlow conversation-tree engine
(`src/store/conversationStore.ts`, `src/utils/contextBuilder.ts`,
`src/utils/answerParser.ts`, `src/utils/layout.ts`).

JavaScript `Map` objects are embedded as insertion-ordered association
lists (`List (κ × α)`): `Map.get` is `mGet`, `Map.set` is `mSet`
(replacing in place when the key exists, appending otherwise, exactly as
a JS `Map` keeps insertion order), `Map.delete` is `mDelete`.

The zustand store semantics relevant here: `set(producer)` passes the
state *at the moment `set` is invoked* to the producer, and after the
producer returns it merges the returned partial into the *then-current*
state.  When a producer itself triggers nested `set` calls (as
`deleteNode` does through `get().deleteNode(childId)`), those nested
commits happen first and the outer producer's returned fields -- built
from the entry-time snapshot -- overwrite them.  The embeddings below
reproduce that commit order explicitly.
-/

/-- `Map.get` on an insertion-ordered association list. -/
def mGet [BEq κ] : List (κ × α) → κ → Option α
  | [], _ => none
  | p :: rest, k => if p.1 == k then some p.2 else mGet rest k

/-- `Map.set`: replace the entry in place when the key is present
(a JS `Map` holds at most one entry per key), append otherwise. -/
def mSet [BEq κ] : List (κ × α) → κ → α → List (κ × α)
  | [], k, v => [(k, v)]
  | p :: rest, k, v => if p.1 == k then (k, v) :: rest else p :: mSet rest k v

/-- `Map.delete`: remove the entry for the key. -/
def mDelete [BEq κ] : List (κ × α) → κ → List (κ × α)
  | [], _ => []
  | p :: rest, k => if p.1 == k then mDelete rest k else p :: mDelete rest k

/-- One parsed answer section (`AnswerSection` in `answerParser.ts`). -/
structure AnswerSection where
  id : String
  text : String
  index : Nat
deriving Repr, DecidableEq

/-- 2-D display coordinate (`position: { x, y }`).  All coordinates the
auto-layout produces are natural numbers. -/
structure Coord where
  x : Nat
  y : Nat
deriving Repr, DecidableEq

/-- `ConversationNode` from `types/conversation.ts`. -/
structure ConversationNode where
  id : String
  name : String
  question : String
  answer : String
  answerSections : Option (List AnswerSection) := none
  parentId : Option String
  childrenIds : List String
  context : List String := []
  timestamp : Nat := 0
  position : Coord := ⟨0, 0⟩
  isCollapsed : Bool := false
  selectedSectionIndexFromParent : Option Nat := none
deriving Repr, DecidableEq

/-- `ConversationTree`: id-to-node mapping (a JS `Map`) plus the ordered
root-id sequence. -/
structure ConversationTree where
  nodes : List (String × ConversationNode)
  rootIds : List String
deriving Repr, DecidableEq

/-- `initialTree` from `conversationStore.ts`. -/
def initialTree : ConversationTree := { nodes := [], rootIds := [] }

/-- `addNode` from `conversationStore.ts`: insert the node; if it has a
parent and the parent exists, append the id to the parent's
`childrenIds`; if it has no parent, append the id to `rootIds`. -/
def addNode (t : ConversationTree) (node : ConversationNode) : ConversationTree :=
  let newNodes := mSet t.nodes node.id node
  match node.parentId with
  | some pid =>
    match mGet newNodes pid with
    | some parent =>
      { nodes := mSet newNodes pid { parent with childrenIds := parent.childrenIds ++ [node.id] },
        rootIds := t.rootIds }
    | none => { nodes := newNodes, rootIds := t.rootIds }
  | none => { nodes := newNodes, rootIds := t.rootIds ++ [node.id] }

/-- `Partial<ConversationNode>`: each field is optionally supplied. -/
structure NodeUpdates where
  id : Option String := none
  name : Option String := none
  question : Option String := none
  answer : Option String := none
  answerSections : Option (Option (List AnswerSection)) := none
  parentId : Option (Option String) := none
  childrenIds : Option (List String) := none
  context : Option (List String) := none
  timestamp : Option Nat := none
  position : Option Coord := none
  isCollapsed : Option Bool := none
  selectedSectionIndexFromParent : Option (Option Nat) := none
deriving Repr

/-- The object spread `{ ...node, ...updates }`: every supplied field
overwrites the node's field. -/
def applyUpdates (node : ConversationNode) (u : NodeUpdates) : ConversationNode :=
  { id := u.id.getD node.id
    name := u.name.getD node.name
    question := u.question.getD node.question
    answer := u.answer.getD node.answer
    answerSections := u.answerSections.getD node.answerSections
    parentId := u.parentId.getD node.parentId
    childrenIds := u.childrenIds.getD node.childrenIds
    context := u.context.getD node.context
    timestamp := u.timestamp.getD node.timestamp
    position := u.position.getD node.position
    isCollapsed := u.isCollapsed.getD node.isCollapsed
    selectedSectionIndexFromParent :=
      u.selectedSectionIndexFromParent.getD node.selectedSectionIndexFromParent }

/-- `updateNode` from `conversationStore.ts`: no-op on an unknown id,
otherwise store the spread-merged node under the same key.  (The
trailing `get().saveToStorage()` call persists sessions and never
touches the tree, so it is outside this tree-level model.) -/
def updateNode (t : ConversationTree) (id : String) (u : NodeUpdates) : ConversationTree :=
  match mGet t.nodes id with
  | none => t
  | some node => { t with nodes := mSet t.nodes id (applyUpdates node u) }

/-- `deleteNode` from `conversationStore.ts`, with the zustand commit
order made explicit.  The producer receives the entry-time snapshot
`t`; it builds `newNodes` (snapshot minus `id`, with `id` filtered out
of its parent's `childrenIds`); the `node.childrenIds.forEach` loop then
runs `get().deleteNode(childId)` against the live store, whose commits
are threaded through `afterChildren`; finally the producer's returned
partial `{ tree: { nodes: newNodes, rootIds: ... } }` -- built from the
snapshot -- is merged into the store, replacing the `tree` committed by
the recursive calls.  `afterChildren` is therefore dead for the final
tree, which is exactly the source's behaviour.  `fuel` bounds the
recursion depth (the recursion always terminates in the source because a
recursive call on an id already removed from the live store is a no-op;
any fuel at least `1` yields the committed result). -/
def deleteNodeFuel (t : ConversationTree) (id : String) : Nat → ConversationTree
  | 0 => t
  | Nat.succ fuel =>
    match mGet t.nodes id with
    | none => t
    | some node =>
      let newNodes := mDelete t.nodes id
      let newNodes :=
        match node.parentId with
        | some pid =>
          match mGet newNodes pid with
          | some parent =>
            mSet newNodes pid
              { parent with childrenIds := parent.childrenIds.filter (fun c => !(c == id)) }
          | none => newNodes
        | none => newNodes
      let _afterChildren :=
        node.childrenIds.foldl (fun cur childId => deleteNodeFuel cur childId fuel) t
      { nodes := newNodes, rootIds := t.rootIds.filter (fun r => !(r == id)) }

/-- `deleteNode`: the committed result of the outer `set` call. -/
def deleteNode (t : ConversationTree) (id : String) : ConversationTree :=
  deleteNodeFuel t id (t.nodes.length + 1)

/-!
## Answer segmentation (`answerParser.ts`)

`parseAnswerIntoSections` is embedded stage by stage.  The JS regexes
are re-expressed as explicit character scans; string indices are
character counts (all inputs of interest are ASCII, where JS UTF-16
indices and character indices agree), and `trim` is `jsTrim` below
(ASCII whitespace, matching JS on the inputs of interest).
-/

/-- JS whitespace (`\s` / `trim`), restricted to the ASCII range. -/
def isJsWs (c : Char) : Bool := c.isWhitespace

/-- `String.prototype.trim`, by structural recursion (Lean's own
`String.trim` is defined by well-founded recursion and does not reduce
inside `decide`). -/
def jsTrim (s : String) : String :=
  String.mk (((s.toList.dropWhile isJsWs).reverse.dropWhile isJsWs).reverse)

/-- `split('\n')`, by structural recursion. -/
def splitLinesAux (acc : List Char) : List Char → List String
  | [] => [String.mk acc.reverse]
  | '\n' :: rest => String.mk acc.reverse :: splitLinesAux [] rest
  | c :: rest => splitLinesAux (c :: acc) rest

def splitLines (s : String) : List String := splitLinesAux [] s.toList

/-- Offset of the start of every line, given the `split('\n')` lines. -/
def lineStartOffsets (off : Nat) : List String → List Nat
  | [] => []
  | l :: rest => off :: lineStartOffsets (off + l.length + 1) rest

/-- A line matched by `/^(#{1,6})\s+(.+)$/` (the `m`-flag regex applied
line by line): a run of `h` hashes with `1 ≤ h ≤ 6` (seven or more
hashes can never match, since after at most six the next character is
another hash, not `\s`), then at least one whitespace character, and --
accounting for `\s+` backtracking against `(.+)` -- at least two
characters after the hashes in total. -/
def isHeaderLine (line : String) : Bool :=
  let cs := line.toList
  let h := (cs.takeWhile (fun c => c == '#')).length
  let rest := cs.drop h
  let ws := (rest.takeWhile (fun c => c.isWhitespace)).length
  decide (1 ≤ h ∧ h ≤ 6 ∧ 1 ≤ ws ∧ 2 ≤ rest.length)

/-- `match.index` of every header match of the global regex: the
character offset of each header line's start. -/
def headerOffsets (answer : String) : List Nat :=
  let lines := splitLines answer
  ((lineStartOffsets 0 lines).zip lines).filterMap
    (fun p => if isHeaderLine p.2 then some p.1 else none)

/-- `answer.substring(start, stop)` on character offsets. -/
def substrChars (s : String) (start stop : Nat) : String :=
  String.mk ((s.toList.drop start).take (stop - start))

/-- The header branch: one section per header, from its offset to the
next header's offset (or the end), trimmed, kept when non-empty, with
the header's running index. -/
def sectionsFromHeadersAux (answer : String) (i : Nat) : List Nat → List AnswerSection
  | [] => []
  | off :: rest =>
    let stop := match rest with | [] => answer.length | next :: _ => next
    let text := jsTrim (substrChars answer off stop)
    (if text == "" then [] else [{ id := "section-" ++ toString i, text := text, index := i }])
      ++ sectionsFromHeadersAux answer (i + 1) rest

/-- `Step\s+\d+:` (case-insensitive `Step`) at the start. -/
def startsStepMarker (cs : List Char) : Bool :=
  match cs with
  | s :: t :: e :: p :: rest =>
    if s.toLower == 's' && t.toLower == 't' && e.toLower == 'e' && p.toLower == 'p' then
      let wsLen := (rest.takeWhile (fun c => c.isWhitespace)).length
      let afterWs := rest.drop wsLen
      let dsLen := (afterWs.takeWhile (fun c => c.isDigit)).length
      let afterDs := afterWs.drop dsLen
      decide (1 ≤ wsLen ∧ 1 ≤ dsLen) &&
        (match afterDs with | ':' :: _ => true | _ => false)
    else false
  | _ => false

/-- `\d+\.\s+` at the start. -/
def startsNumberDot (cs : List Char) : Bool :=
  let dsLen := (cs.takeWhile (fun c => c.isDigit)).length
  match cs.drop dsLen with
  | '.' :: rest =>
    decide (1 ≤ dsLen) && decide (1 ≤ (rest.takeWhile (fun c => c.isWhitespace)).length)
  | _ => false

/-- `[-*]\s+` at the start. -/
def startsBullet (cs : List Char) : Bool :=
  match cs with
  | c :: rest =>
    (c == '-' || c == '*') && decide (1 ≤ (rest.takeWhile (fun ch => ch.isWhitespace)).length)
  | _ => false

/-- The step-marker alternation, anchored at a line start (both the
`test` regex, whose `(?:^|\n)` plus inner `^` anchors put every
alternative at a line start, and the per-line regex reduce to this). -/
def matchesStepStart (cs : List Char) : Bool :=
  startsStepMarker cs || startsNumberDot cs || startsBullet cs

/-- `stepRegex.test(answer)`: some raw line starts with a step marker. -/
def answerHasStepMarker (answer : String) : Bool :=
  (splitLines answer).any (fun l => matchesStepStart l.toList)

/-- Accumulator of the step-branch line loop. -/
structure StepFoldState where
  sections : List AnswerSection
  sectionIndex : Nat
  currentSection : List String
deriving Repr

/-- Close the current section: join with newlines, trim, push. -/
def pushCurrent (st : StepFoldState) : StepFoldState :=
  { sections := st.sections ++
      [{ id := "section-" ++ toString st.sectionIndex,
         text := jsTrim (String.intercalate "\n" st.currentSection),
         index := st.sectionIndex }],
    sectionIndex := st.sectionIndex + 1,
    currentSection := [] }

/-- One iteration of the step-branch `lines.forEach` loop. -/
def stepFoldLine (st : StepFoldState) (line : String) : StepFoldState :=
  let trimmed := jsTrim line
  if trimmed == "" && !st.currentSection.isEmpty then
    pushCurrent st
  else if matchesStepStart trimmed.toList then
    let st1 := if !st.currentSection.isEmpty then pushCurrent st else st
    { st1 with currentSection := [line] }
  else if !st.currentSection.isEmpty || trimmed != "" then
    { st with currentSection := st.currentSection ++ [line] }
  else st

/-- The step branch: fold the lines, then flush the final section. -/
def stepSections (answer : String) : List AnswerSection :=
  let final := (splitLines answer).foldl stepFoldLine
    { sections := [], sectionIndex := 0, currentSection := [] }
  if !final.currentSection.isEmpty then (pushCurrent final).sections else final.sections

/-- Index of the last occurrence of `c`, if any. -/
def lastIdxOf (c : Char) (l : List Char) : Option Nat :=
  (l.foldl (fun (acc : Nat × Option Nat) ch =>
    (acc.1 + 1, if ch == c then some acc.1 else acc.2)) (0, none)).2

/-- `answer.split(/\n\s*\n/)`: scanning left to right, a separator match
starts at a `\n` whose following maximal whitespace run contains another
`\n`; greedy `\s*` with backtracking makes the separator extend through
the last `\n` of that run. -/
def splitParasAux : Nat → List Char → List Char → List String
  | 0, acc, _ => [String.mk acc.reverse]
  | _ + 1, acc, [] => [String.mk acc.reverse]
  | fuel + 1, acc, '\n' :: rest =>
    let run := rest.takeWhile (fun c => c.isWhitespace)
    match lastIdxOf '\n' run with
    | some j => String.mk acc.reverse :: splitParasAux fuel [] (rest.drop (j + 1))
    | none => splitParasAux fuel ('\n' :: acc) rest
  | fuel + 1, acc, c :: rest => splitParasAux fuel (c :: acc) rest

/-- The split itself.  The fuel (one more than the character count)
strictly dominates the remaining input length at every recursive call,
so the fuel cut-off is unreachable; it only makes the recursion
structural. -/
def splitParas (s : String) : List String :=
  splitParasAux (s.toList.length + 1) [] s.toList

/-- `forEach` with an explicit running index. -/
def mapWithIndex (f : Nat → α → β) : Nat → List α → List β
  | _, [] => []
  | i, a :: rest => f i a :: mapWithIndex f (i + 1) rest

/-- The paragraph branch: split on blank-line separators, keep the
paragraphs with non-empty trim, number them in filtered order. -/
def paragraphSections (answer : String) : List AnswerSection :=
  let paragraphs := (splitParas answer).filter (fun p => jsTrim p != "")
  mapWithIndex
    (fun i p => { id := "section-" ++ toString i, text := jsTrim p, index := i }) 0 paragraphs

/-- One line under `text.replace(/^#{1,6}\s+/gm, '')`: drop a leading
run of one to six hashes together with the following whitespace run
(seven or more hashes never match, as in `isHeaderLine`). -/
def stripHeaderMarker (line : String) : String :=
  let cs := line.toList
  let h := (cs.takeWhile (fun c => c == '#')).length
  let rest := cs.drop h
  let ws := (rest.takeWhile (fun c => c.isWhitespace)).length
  if decide (1 ≤ h ∧ h ≤ 6 ∧ 1 ≤ ws) then String.mk (rest.drop ws) else line

/-- The final clean-up `map`: strip header markers on every line, trim. -/
def cleanupSectionText (text : String) : String :=
  jsTrim (String.intercalate "\n" ((splitLines text).map stripHeaderMarker))

/-- `parseAnswerIntoSections` from `answerParser.ts`. -/
def parseAnswerIntoSections (answer : String) : List AnswerSection :=
  if answer == "" || jsTrim answer == "" then []
  else
    let hs := headerOffsets answer
    let sections :=
      if !hs.isEmpty then sectionsFromHeadersAux answer 0 hs
      else if answerHasStepMarker answer then stepSections answer
      else paragraphSections answer
    let sections :=
      if sections.isEmpty then [{ id := "section-0", text := jsTrim answer, index := 0 }]
      else sections
    sections.map (fun sec => { sec with text := cleanupSectionText sec.text })

/-!
## Context building (`contextBuilder.ts`)
-/

/-- `let sections = chainNode.answerSections; if (!sections ||
sections.length === 0) sections = parseAnswerIntoSections(...)`. -/
def sectionsForNode (n : ConversationNode) : List AnswerSection :=
  match n.answerSections with
  | some s => if s.isEmpty then parseAnswerIntoSections n.answer else s
  | none => parseAnswerIntoSections n.answer

/-- The two `contextParts` entries one chain node contributes in the
full-chain branch of `buildContext`. -/
def renderNodeParts (chainNode : ConversationNode) (isLast : Bool) (sel : Option Nat) :
    List String :=
  ("Q: " ++ chainNode.question) ::
    [if isLast then
       match sel with
       | some idx =>
         (match (sectionsForNode chainNode)[idx]? with
          | some selectedSection => "A (selected section): " ++ selectedSection.text
          | none => "A: " ++ chainNode.answer)
       | none => "A: " ++ chainNode.answer
     else "A: " ++ chainNode.answer]

/-- The `chain.forEach` loop: `isLastNode` (`index === chain.length -
1`) holds exactly when no element follows. -/
def renderChainParts (sel : Option Nat) : List ConversationNode → List String
  | [] => []
  | n :: rest => renderNodeParts n rest.isEmpty sel ++ renderChainParts sel rest

/-- `isContinuingFromChild`: a non-null parent node that itself has a
parent, and no selected section index. -/
def isContinuingFromChild (parentNode : Option ConversationNode) (sel : Option Nat) : Bool :=
  match sel, parentNode with
  | none, some p => p.parentId.isSome
  | _, _ => false

/-- `buildContext` from `contextBuilder.ts`. -/
def buildContext (parentNode : Option ConversationNode) (chain : List ConversationNode)
    (selectedSectionIndex : Option Nat) : String :=
  if chain.isEmpty then "" else
  let contextParts :=
    if isContinuingFromChild parentNode selectedSectionIndex then
      match chain.getLast? with
      | some immediateParent =>
        ["Q: " ++ immediateParent.question, "A: " ++ immediateParent.answer]
      | none => []
    else renderChainParts selectedSectionIndex chain
  String.intercalate "\n\n" contextParts


/-!
## Structural invariants (spec §3)

The four invariants, as one decidable check over the embedded tree.
-/

/-- Boolean no-duplicates check. -/
def listNodupBool [BEq α] : List α → Bool
  | [] => true
  | a :: rest => !rest.contains a && listNodupBool rest

/-- Invariant 1: every non-null `parentId` names an existing node whose
`childrenIds` contains the child's id. -/
def invariant1 (t : ConversationTree) : Bool :=
  t.nodes.all (fun p =>
    match p.2.parentId with
    | none => true
    | some pid =>
      match mGet t.nodes pid with
      | some parent => parent.childrenIds.contains p.1
      | none => false)

/-- Invariant 2: the root sequence equals exactly the set of node ids
with null `parentId`. -/
def invariant2 (t : ConversationTree) : Bool :=
  t.rootIds.all (fun r =>
      match mGet t.nodes r with
      | some n => n.parentId.isNone
      | none => false)
  && t.nodes.all (fun p => !p.2.parentId.isNone || t.rootIds.contains p.1)

/-- Following `parentId` links reaches a parentless node within `fuel`
hops, every hop landing on an existing node. -/
def parentHopsToRoot (t : ConversationTree) : Nat → String → Bool
  | 0, _ => false
  | fuel + 1, id =>
    match mGet t.nodes id with
    | none => false
    | some n =>
      match n.parentId with
      | none => true
      | some pid => parentHopsToRoot t fuel pid

/-- Invariant 3: no cycles -- every node reaches a root within the node
count. -/
def invariant3 (t : ConversationTree) : Bool :=
  t.nodes.all (fun p => parentHopsToRoot t t.nodes.length p.1)

/-- Invariant 4: no duplicate and no dangling `childrenIds`. -/
def invariant4 (t : ConversationTree) : Bool :=
  t.nodes.all (fun p =>
    listNodupBool p.2.childrenIds &&
    p.2.childrenIds.all (fun c => (mGet t.nodes c).isSome))

/-- All four invariants of spec §3. -/
def invariantsHold (t : ConversationTree) : Bool :=
  invariant1 t && invariant2 t && invariant3 t && invariant4 t

/-!
## Auto-layout (`layout.ts`)
-/

def NODE_WIDTH : Nat := 400
def HORIZONTAL_SPACING : Nat := 500
def VERTICAL_SPACING : Nat := 350

/-- `calculateDepth`: number of `parentId` hops until a parentless (or
missing) node; a missing node contributes depth 0.  The source memoizes
through `depthMap`, which is a pure cache and semantically transparent;
the fuel (the node count, consumed one unit per hop) covers every
parent chain the source's recursion terminates on. -/
def calculateDepth (t : ConversationTree) : Nat → String → Nat
  | 0, _ => 0
  | fuel + 1, nodeId =>
    match mGet t.nodes nodeId with
    | none => 0
    | some node =>
      match node.parentId with
      | none => 0
      | some pid => calculateDepth t fuel pid + 1

def nodeDepth (t : ConversationTree) (id : String) : Nat :=
  calculateDepth t t.nodes.length id

/-- `if (!nodesByDepth.has(depth)) nodesByDepth.set(depth, []);
nodesByDepth.get(depth)!.push(node.id)`. -/
def pushGroup (groups : List (Nat × List String)) (d : Nat) (id : String) :
    List (Nat × List String) :=
  match mGet groups d with
  | some l => mSet groups d (l ++ [id])
  | none => mSet groups d [id]

/-- Group the nodes' `id` fields by depth, in `tree.nodes.forEach`
(insertion) order. -/
def groupByDepth (t : ConversationTree) : List (Nat × List String) :=
  t.nodes.foldl (fun groups p => pushGroup groups (nodeDepth t p.2.id) p.2.id) []

/-- `Array.prototype.sort((a, b) => a - b)` on the depth keys: ascending
numeric order (stable insertion sort; the keys are distinct). -/
def sortNatsInsert (n : Nat) : List Nat → List Nat
  | [] => [n]
  | m :: ms => if n ≤ m then n :: m :: ms else m :: sortNatsInsert n ms

def sortNats (l : List Nat) : List Nat := l.foldr sortNatsInsert []

/-- The position assigned to group index `i` at depth `d`:
`x = startX + i*(NODE_WIDTH + HORIZONTAL_SPACING) + d*(NODE_WIDTH + 100)`,
`y = startY + d*VERTICAL_SPACING` with `startX = 300`, `startY = 100`. -/
def posAt (d i : Nat) : Coord :=
  ⟨300 + i * (NODE_WIDTH + HORIZONTAL_SPACING) + d * (NODE_WIDTH + 100),
   100 + d * VERTICAL_SPACING⟩

/-- `nodesAtDepth.forEach((nodeId, index) => positions.set(...))`. -/
def placeRow (d : Nat) : Nat → List String → List (String × Coord) → List (String × Coord)
  | _, [], positions => positions
  | i, nodeId :: rest, positions => placeRow d (i + 1) rest (mSet positions nodeId (posAt d i))

/-- `nodesByDepth.get(depth)!` (always present for a visited depth). -/
def groupIdsAt (groups : List (Nat × List String)) (d : Nat) : List String :=
  match mGet groups d with
  | some l => l
  | none => []

/-- `calculateSimpleLayout` from `layout.ts`. -/
def calculateSimpleLayout (t : ConversationTree) : List (String × Coord) :=
  if t.nodes.isEmpty then [] else
  let groups := groupByDepth t
  let sortedDepths := sortNats (groups.map Prod.fst)
  sortedDepths.foldl (fun positions d => placeRow d 0 (groupIdsAt groups d) positions) []

/-- `calculateAutoLayout`: the empty check, then the simple layout (the
dagre path is commented out in the source). -/
def calculateAutoLayout (t : ConversationTree) : List (String × Coord) :=
  if t.nodes.isEmpty then [] else calculateSimpleLayout t

/-- Index of the first occurrence (length when absent). -/
def idxOfStr (id : String) : List String → Nat
  | [] => 0
  | k :: rest => if k == id then 0 else idxOfStr id rest + 1

/-- The claim's sibling position: the index of `id` within the ids of
its depth group, insertion order across the whole depth. -/
def depthGroupIndex (t : ConversationTree) (id : String) : Nat :=
  idxOfStr id ((t.nodes.map (fun p => p.2.id)).filter
    (fun k => nodeDepth t k == nodeDepth t id))

/-- `none` for the empty list, `some` otherwise (the shape of
`nodesByDepth.get(d)` under the grouping loop). -/
def listOpt : List α → Option (List α)
  | [] => none
  | x :: xs => some (x :: xs)

/-!
## Sessions, export and import (`conversationStore.ts`)

`JSON.parse`d values are embedded as `Json` trees; `JSON.stringify`
followed by `JSON.parse` is the identity on this domain, so the
serialized text `exportSession` returns is modeled by its JSON value,
and `importSession` takes `Option Json` -- `none` standing for input on
which `JSON.parse` throws.  `Date.now()`, `Math.random()`-based
generated ids and locale-rendered date strings are environment inputs
and appear as explicit `now`/`genId` parameters.  `localStorage`
traffic is fire-and-forget in the source (caught and logged) and does
not affect the in-memory state modeled here.
-/

inductive Json where
  | null : Json
  | bool (b : Bool) : Json
  | num (n : Int) : Json
  | str (s : String) : Json
  | arr (items : List Json) : Json
  | obj (fields : List (String × Json)) : Json
deriving BEq, Repr

/-- Property read `j.key`: `none` models `undefined`. -/
def jGet (j : Json) (key : String) : Option Json :=
  match j with
  | Json.obj fields => mGet fields key
  | _ => none

/-- JS truthiness of a possibly-`undefined` value. -/
def truthyOpt : Option Json → Bool
  | none => false
  | some Json.null => false
  | some (Json.bool b) => b
  | some (Json.num n) => !(n == 0)
  | some (Json.str s) => !(s == "")
  | some (Json.arr _) => true
  | some (Json.obj _) => true

/-- Property assignment `j.key = v`.  On a non-object (the array values
hit by the import name back-fill) JS attaches an expando property that
no later read in this code base observes, so the value is structurally
unchanged. -/
def jSetField (j : Json) (key : String) (v : Json) : Json :=
  match j with
  | Json.obj fields => Json.obj (mSet fields key v)
  | other => other

def sectionToJson (s : AnswerSection) : Json :=
  Json.obj [("id", Json.str s.id), ("text", Json.str s.text),
            ("index", Json.num (s.index : Int))]

/-- `JSON.stringify` of a `ConversationNode` object: optional fields
that are `undefined` are omitted. -/
def nodeToJson (n : ConversationNode) : Json :=
  Json.obj
    ([("id", Json.str n.id), ("name", Json.str n.name),
      ("question", Json.str n.question), ("answer", Json.str n.answer)]
     ++ (match n.answerSections with
         | some ss => [("answerSections", Json.arr (ss.map sectionToJson))]
         | none => [])
     ++ [("parentId", match n.parentId with | some p => Json.str p | none => Json.null),
         ("childrenIds", Json.arr (n.childrenIds.map Json.str)),
         ("context", Json.arr (n.context.map Json.str)),
         ("timestamp", Json.num (n.timestamp : Int)),
         ("position", Json.obj [("x", Json.num (n.position.x : Int)),
                                ("y", Json.num (n.position.y : Int))]),
         ("isCollapsed", Json.bool n.isCollapsed)]
     ++ (match n.selectedSectionIndexFromParent with
         | some i => [("selectedSectionIndexFromParent", Json.num (i : Int))]
         | none => []))

/-- The three shapes a stored session's `tree.nodes` can have at run
time.  `saveCurrentSession` stores the *array* of `[id, node]` pairs
(`nodesArray as any` in the source), `createNewSession` and the loaders
store a real `Map` of typed nodes, and `importSession` stores a `Map`
built from parsed JSON entries, whose keys and values are raw JSON
values. -/
inductive SessNodes where
  | jsMap (m : List (String × ConversationNode))
  | jsArr (a : List (String × ConversationNode))
  | jsonMap (m : List (Json × Json))
deriving Repr

/-- A stored session's tree.  `rootIds` is kept as raw JSON values:
natively-saved sessions store strings (`Json.str`), imported sessions
store whatever the document carried. -/
structure StoredTree where
  nodes : SessNodes
  rootIds : List Json
deriving Repr

/-- `Session` from `conversationStore.ts`. -/
structure Session where
  id : String
  name : String
  createdAt : Nat
  updatedAt : Nat
  tree : StoredTree
deriving Repr

/-- The zustand store's state: the active tree, the active session id,
and the session mapping. -/
structure StoreState where
  tree : ConversationTree
  currentSessionId : Option String
  sessions : List (String × Session)
deriving Repr

inductive StoreErr where
  | notFound
  | parseError
  | invalidFormat
  | typeError
deriving Repr, DecidableEq

/-- `saveCurrentSession`: upsert the active session (or one under a
fresh id when none is active), converting the active tree's node `Map`
to an **array** of entries (`nodesArray as any`), preserving a stored
`createdAt` (`|| Date.now()` on a falsy one), stamping `updatedAt`. -/
def saveCurrentSession (genId : String) (now : Nat) (name : Option String) (s : StoreState) :
    String × StoreState :=
  let sessionId := s.currentSessionId.getD genId
  let sessionName :=
    match name with
    | some nm => if nm == "" then "Session " ++ toString now else nm
    | none => "Session " ++ toString now
  let session : Session :=
    { id := sessionId
      name := sessionName
      createdAt := (match (mGet s.sessions sessionId).map (fun old => old.createdAt) with
                    | some c => if c == 0 then now else c
                    | none => now)
      updatedAt := now
      tree := { nodes := SessNodes.jsArr s.tree.nodes,
                rootIds := s.tree.rootIds.map Json.str } }
  let newSessions := mSet s.sessions sessionId session
  (sessionId, { s with currentSessionId := some sessionId, sessions := newSessions })

/-- `createNewSession`.  `const state = get()` is taken **before** the
conditional `saveCurrentSession()`, and `new Map(state.sessions)` is
built from that stale snapshot, so the save's upsert to the session
mapping is dropped when the new mapping is committed -- reproduced here
by building `newSessions` from `state` while threading the live store
through `s1`. -/
def createNewSession (genId saveGenId : String) (now : Nat) (s : StoreState) :
    String × StoreState :=
  let state := s
  let s1 := if state.currentSessionId.isSome && !state.tree.nodes.isEmpty
            then (saveCurrentSession saveGenId now none s).2 else s
  let newSession : Session :=
    { id := genId, name := "New Session " ++ toString now,
      createdAt := now, updatedAt := now,
      tree := { nodes := SessNodes.jsMap initialTree.nodes,
                rootIds := initialTree.rootIds.map Json.str } }
  let newSessions := mSet state.sessions genId newSession
  (genId, { s1 with tree := initialTree, currentSessionId := some genId,
                    sessions := newSessions })

/-- `deleteSession`.  As in `createNewSession`, `const state = get()`
precedes the conditional `createNewSession()` call, and the committed
`sessions` is the stale `state.sessions` minus `sessionId` -- so a
replacement session created for the active id is dropped from the
mapping. -/
def deleteSession (sessionId genId saveGenId : String) (now : Nat) (s : StoreState) :
    StoreState :=
  let state := s
  let s1 := if state.currentSessionId == some sessionId
            then (createNewSession genId saveGenId now s).2 else s
  let newSessions := mDelete state.sessions sessionId
  { s1 with sessions := newSessions }

/-- `Array.from(session.tree.nodes.entries())`: on a JS `Map` this
yields the `[key, value]` pairs; on an **array** (what
`saveCurrentSession` stored) `Array.prototype.entries` yields
`[index, element]` pairs, the element being itself an `[id, node]`
pair. -/
def exportEntries : SessNodes → List Json
  | SessNodes.jsMap m => m.map (fun p => Json.arr [Json.str p.1, nodeToJson p.2])
  | SessNodes.jsArr a =>
    mapWithIndex
      (fun i p => Json.arr [Json.num (i : Int), Json.arr [Json.str p.1, nodeToJson p.2]]) 0 a
  | SessNodes.jsonMap m => m.map (fun p => Json.arr [p.1, p.2])

/-- `exportSession`: `NotFound` (a thrown `Error`) on an unknown id,
otherwise the versioned export document. -/
def exportSession (sessionId : String) (now : Nat) (s : StoreState) : Except StoreErr Json :=
  match mGet s.sessions sessionId with
  | none => Except.error StoreErr.notFound
  | some session =>
    Except.ok (Json.obj
      [("version", Json.str "1.0"),
       ("exportedAt", Json.num (now : Int)),
       ("session", Json.obj
         [("id", Json.str session.id), ("name", Json.str session.name),
          ("createdAt", Json.num (session.createdAt : Int)),
          ("updatedAt", Json.num (session.updatedAt : Int)),
          ("tree", Json.obj
            [("nodes", Json.arr (exportEntries session.tree.nodes)),
             ("rootIds", Json.arr session.tree.rootIds)])])])

/-- The store's `generateNodeName` as invoked by the import back-fill:
it reads the **active** tree (`get()`), not the imported one, and
receives the raw JSON `parentId`.  `parentId === null` holds only for
JSON `null`; a non-string, non-null value misses the `Map` lookup and
falls back to the numeric name. -/
def generateNodeNameJson (s : StoreState) (parentId : Option Json) : String :=
  match parentId with
  | some Json.null => "Question " ++ toString (s.tree.rootIds.length + 1)
  | some (Json.str p) =>
    (match mGet s.tree.nodes p with
     | some parent => "Follow-up " ++ toString (parent.childrenIds.length + 1)
     | none => "Node " ++ toString (s.tree.nodes.length + 1))
  | _ => "Node " ++ toString (s.tree.nodes.length + 1)

/-- `new Map(entries)`: every entry must be an object (`TypeError`
otherwise); its key is `e[0]` and value `e[1]` (`undefined`, conflated
here with `null`, when missing); a later duplicate key overwrites the
earlier value in place. -/
def newMapFromJson (j : Json) : Except StoreErr (List (Json × Json)) :=
  match j with
  | Json.arr entries =>
    entries.foldlM
      (fun acc e =>
        match e with
        | Json.arr l => Except.ok (mSet acc (l.getD 0 Json.null) (l.getD 1 Json.null))
        | Json.obj _ => Except.ok (mSet acc Json.null Json.null)
        | _ => Except.error StoreErr.typeError)
      []
  | _ => Except.error StoreErr.typeError

/-- `importSession`.  `none` input: `JSON.parse` threw and the catch
rethrows (`parseError`).  A JSON `null` document: `data.session` throws
`TypeError`.  A falsy `session` or `session.tree`: the explicit
`Invalid session file format` error.  Otherwise the node `Map` is
rebuilt from `tree.nodes || []`, names are back-filled on values
lacking a truthy `name`, and a session under the fresh id `genId` is
registered.  Any throw happens before the store is written, so the
session mapping is untouched on every error path. -/
def importSession (input : Option Json) (genId : String) (now : Nat) (s : StoreState) :
    Except StoreErr (String × StoreState) :=
  match input with
  | none => Except.error StoreErr.parseError
  | some Json.null => Except.error StoreErr.typeError
  | some data =>
    let sessionOpt := jGet data "session"
    if !truthyOpt sessionOpt then Except.error StoreErr.invalidFormat
    else
      let importedSession := sessionOpt.getD Json.null
      let treeVal := (jGet importedSession "tree").getD Json.null
      if !truthyOpt (jGet importedSession "tree") then Except.error StoreErr.invalidFormat
      else
        let nodesField := jGet treeVal "nodes"
        let nodesArray := if truthyOpt nodesField then nodesField.getD Json.null
                          else Json.arr []
        match newMapFromJson nodesArray with
        | Except.error e => Except.error e
        | Except.ok nodes0 =>
          let nodes1 := nodes0.map (fun p =>
            if truthyOpt (jGet p.2 "name") then p
            else (p.1, jSetField p.2 "name"
                    (Json.str (generateNodeNameJson s (jGet p.2 "parentId")))))
          let session : Session :=
            { id := genId
              name := (match jGet importedSession "name" with
                       | some (Json.str nm) =>
                         if nm == "" then "Imported Session " ++ toString now else nm
                       | _ => "Imported Session " ++ toString now)
              createdAt := (match jGet importedSession "createdAt" with
                            | some (Json.num c) => if c == 0 then now else c.toNat
                            | _ => now)
              updatedAt := now
              tree := { nodes := SessNodes.jsonMap nodes1,
                        rootIds := (match jGet treeVal "rootIds" with
                                    | some (Json.arr l) => l
                                    | _ => []) } }
          let newSessions := mSet s.sessions genId session
          Except.ok (genId, { s with sessions := newSessions })

/-!
## Concrete fixtures
-/

def exNodeA : ConversationNode :=
  { id := "a", name := "A", question := "qa", answer := "ansa",
    parentId := none, childrenIds := [] }

def exNodeB : ConversationNode :=
  { id := "b", name := "B", question := "qb", answer := "ansb",
    parentId := some "a", childrenIds := [] }

def exNodeC : ConversationNode :=
  { id := "c", name := "C", question := "qc", answer := "ansc",
    parentId := some "a", childrenIds := [] }

/-- Root `a` with child `b`, built through `addNode`. -/
def exTreeAB : ConversationTree := addNode (addNode initialTree exNodeA) exNodeB

/-- Root `a` with children `b`, `c`. -/
def exTreeABC : ConversationTree := addNode exTreeAB exNodeC

/-- The node stored under `"a"` inside `exTreeAB`. -/
def exNodeAWithB : ConversationNode := { exNodeA with childrenIds := ["b"] }

def exAnswerUpdate : NodeUpdates := { answer := some "edited" }

def exParentUpdate : NodeUpdates := { parentId := some (some "z") }

/-- A node whose cached `answerSections` is present but **empty**, with
an answer the segmentation function splits into two sections. -/
def exEmptyCacheNode : ConversationNode :=
  { id := "n", name := "N", question := "q1", answer := "foo\n\nbar",
    answerSections := some [], parentId := none, childrenIds := [] }

/-- A node with three cached answer sections. -/
def exSectionsNode : ConversationNode :=
  { id := "m", name := "M", question := "qm", answer := "foo bar baz",
    answerSections := some
      [{ id := "s0", text := "foo", index := 0 },
       { id := "s1", text := "bar", index := 1 },
       { id := "s2", text := "baz", index := 2 }],
    parentId := some "a", childrenIds := [] }

def exSession1 : Session :=
  { id := "s1", name := "S1", createdAt := 1, updatedAt := 1,
    tree := { nodes := SessNodes.jsMap [], rootIds := [] } }

/-- Active session `s1`, active tree holding the single root `a`. -/
def exStoreA : StoreState :=
  { tree := { nodes := [("a", exNodeA)], rootIds := ["a"] },
    currentSessionId := some "s1", sessions := [] }

/-- `exStoreA` after `saveCurrentSession()` stored session `s1`. -/
def exStoreSaved : StoreState := (saveCurrentSession "gen" 5 none exStoreA).2

/-- Empty active tree, active session `s1`, one stored session. -/
def exStoreDel : StoreState :=
  { tree := initialTree, currentSessionId := some "s1", sessions := [("s1", exSession1)] }

/-- A minimal structurally-valid import document. -/
def exDocMin : Json := Json.obj [("session", Json.obj [("tree", Json.obj [])])]

/-- A document whose `session` lacks a `tree`. -/
def exDocNoTree : Json := Json.obj [("session", Json.obj [("name", Json.str "x")])]

/-- The session `importSession exDocMin` registers under fresh id
`"f3"` at time `2`. -/
def exImportedSession : Session :=
  { id := "f3", name := "Imported Session " ++ toString 2, createdAt := 2, updatedAt := 2,
    tree := { nodes := SessNodes.jsonMap [], rootIds := [] } }

/-- `exStoreDel` after that import. -/
def exImportedState : StoreState :=
  { exStoreDel with sessions := mSet exStoreDel.sessions "f3" exImportedSession }

/-!
## Association-map lemmas
-/

theorem mGet_mSet_self [BEq κ] [LawfulBEq κ] (m : List (κ × α)) (k : κ) (v : α) :
    mGet (mSet m k v) k = some v := by
  induction m with
  | nil => simp [mGet, mSet]
  | cons p rest ih =>
    by_cases h : p.1 == k
    · simp [mSet, h, mGet]
    · simp [mSet, h, mGet, ih]

theorem mGet_mSet_ne [BEq κ] [LawfulBEq κ] (m : List (κ × α)) (k k2 : κ) (v : α)
    (hne : k2 ≠ k) : mGet (mSet m k v) k2 = mGet m k2 := by
  have hkk : (k == k2) = false := beq_eq_false_iff_ne.mpr (Ne.symm hne)
  induction m with
  | nil => simp [mGet, mSet, hkk]
  | cons p rest ih =>
    by_cases h : p.1 == k
    · have hp : p.1 = k := eq_of_beq h
      simp [mSet, h, mGet, hkk, hp]
    · simp [mSet, h, mGet, ih]

theorem mGet_none_iff [BEq κ] [LawfulBEq κ] (m : List (κ × α)) (k : κ) :
    mGet m k = none ↔ k ∉ m.map Prod.fst := by
  induction m with
  | nil => simp [mGet]
  | cons p rest ih =>
    by_cases h : p.1 == k
    · simp [mGet, h, eq_of_beq h]
    · have hne : p.1 ≠ k := by simpa using h
      have hg : mGet (p :: rest) k = mGet rest k := by simp [mGet, h]
      rw [hg, ih]
      simp only [List.map_cons, List.mem_cons, not_or]
      exact ⟨fun hnm => ⟨fun he => hne he.symm, hnm⟩, fun hh => hh.2⟩

theorem mem_of_mGet_some [BEq κ] [LawfulBEq κ] {m : List (κ × α)} {k : κ} {v : α}
    (h : mGet m k = some v) : k ∈ m.map Prod.fst := by
  by_contra hmem
  rw [(mGet_none_iff m k).mpr hmem] at h
  exact Option.noConfusion h

theorem mGet_isSome_iff [BEq κ] [LawfulBEq κ] (m : List (κ × α)) (k : κ) :
    (mGet m k).isSome = true ↔ k ∈ m.map Prod.fst := by
  rw [Option.isSome_iff_ne_none, Ne, mGet_none_iff, not_not]

theorem mSet_map_fst_mem [BEq κ] [LawfulBEq κ] (m : List (κ × α)) (k : κ) (v : α)
    (h : k ∈ m.map Prod.fst) : (mSet m k v).map Prod.fst = m.map Prod.fst := by
  induction m with
  | nil => simp at h
  | cons p rest ih =>
    by_cases hp : p.1 == k
    · simp [mSet, hp, eq_of_beq hp]
    · have hne : p.1 ≠ k := by simpa using hp
      have : k ∈ rest.map Prod.fst := by
        simp only [List.map_cons, List.mem_cons] at h
        exact h.resolve_left (fun he => hne he.symm)
      simp [mSet, hp, ih this]

theorem mSet_map_fst_not_mem [BEq κ] [LawfulBEq κ] (m : List (κ × α)) (k : κ) (v : α)
    (h : k ∉ m.map Prod.fst) : (mSet m k v).map Prod.fst = m.map Prod.fst ++ [k] := by
  induction m with
  | nil => simp [mSet]
  | cons p rest ih =>
    simp only [List.map_cons, List.mem_cons] at h
    push_neg at h
    have hp : (p.1 == k) = false := beq_eq_false_iff_ne.mpr (fun he => h.1 he.symm)
    simp [mSet, hp, ih h.2]

/-!
## `listOpt`, `idxOfStr`, sorting lemmas
-/

theorem listOpt_eq_none {l : List α} : listOpt l = none ↔ l = [] := by
  cases l <;> simp [listOpt]

theorem listOpt_eq_some {l l2 : List α} (h : listOpt l = some l2) : l = l2 := by
  cases l with
  | nil => exact Option.noConfusion h
  | cons x xs => simpa [listOpt] using h

theorem mem_sortNatsInsert (a n : Nat) (l : List Nat) :
    a ∈ sortNatsInsert n l ↔ a = n ∨ a ∈ l := by
  induction l with
  | nil => simp [sortNatsInsert]
  | cons m ms ih =>
    by_cases h : n ≤ m
    · simp [sortNatsInsert, h]
    · simp only [sortNatsInsert, if_neg h, List.mem_cons, ih]
      tauto

theorem nodup_sortNatsInsert (n : Nat) (l : List Nat) (hn : n ∉ l) (hl : l.Nodup) :
    (sortNatsInsert n l).Nodup := by
  induction l with
  | nil => simp [sortNatsInsert]
  | cons m ms ih =>
    simp only [List.mem_cons, not_or] at hn
    simp only [List.nodup_cons] at hl
    by_cases h : n ≤ m
    · simp only [sortNatsInsert, if_pos h, List.nodup_cons, List.mem_cons, not_or]
      exact ⟨⟨hn.1, hn.2⟩, hl.1, hl.2⟩
    · simp only [sortNatsInsert, if_neg h, List.nodup_cons, mem_sortNatsInsert]
      refine ⟨?_, ih hn.2 hl.2⟩
      rintro (he | hm)
      · exact hn.1 he.symm
      · exact hl.1 hm

theorem mem_sortNats (a : Nat) (l : List Nat) : a ∈ sortNats l ↔ a ∈ l := by
  induction l with
  | nil => simp [sortNats]
  | cons x xs ih =>
    show a ∈ sortNatsInsert x (sortNats xs) ↔ _
    simp [mem_sortNatsInsert, ih]

theorem sortNats_nodup (l : List Nat) (h : l.Nodup) : (sortNats l).Nodup := by
  induction l with
  | nil => simp [sortNats]
  | cons x xs ih =>
    simp only [List.nodup_cons] at h
    show (sortNatsInsert x (sortNats xs)).Nodup
    exact nodup_sortNatsInsert x _ (fun hm => h.1 ((mem_sortNats x xs).mp hm)) (ih h.2)

/-!
## Layout lemmas
-/

theorem pushGroup_char (acc : List (Nat × List String)) (dep : String → Nat)
    (done : List String) (i : String)
    (h : ∀ d, mGet acc d = listOpt (done.filter (fun k => dep k == d))) (d : Nat) :
    mGet (pushGroup acc (dep i) i) d =
      listOpt ((done ++ [i]).filter (fun k => dep k == d)) := by
  by_cases hd : dep i = d
  · subst hd
    have hfi : (dep i == dep i) = true := by simp
    unfold pushGroup
    cases hacc : mGet acc (dep i) with
    | none =>
      have hdone : done.filter (fun k => dep k == dep i) = [] := by
        have := h (dep i); rw [hacc] at this; exact (listOpt_eq_none.mp this.symm)
      rw [mGet_mSet_self]
      simp [List.filter_append, hdone, hfi, listOpt]
    | some l =>
      have hdone : done.filter (fun k => dep k == dep i) = l := by
        have := h (dep i); rw [hacc] at this; exact listOpt_eq_some this.symm ▸ rfl
      rw [mGet_mSet_self]
      rw [List.filter_append]
      simp only [List.filter, hfi]
      rw [hdone]
      cases l <;> simp [listOpt]
  · have hfi : (dep i == d) = false := by simpa using hd
    have hstep : mGet (pushGroup acc (dep i) i) d = mGet acc d := by
      unfold pushGroup
      cases mGet acc (dep i) <;> exact mGet_mSet_ne _ _ _ _ (fun he => hd he.symm)
    rw [hstep, h d, List.filter_append]
    simp [List.filter, hfi]

theorem pushGroup_fold_char (dep : String → Nat) :
    ∀ (ids done : List String) (acc : List (Nat × List String)),
      (∀ d, mGet acc d = listOpt (done.filter (fun k => dep k == d))) →
      ∀ d, mGet (ids.foldl (fun g i => pushGroup g (dep i) i) acc) d =
        listOpt ((done ++ ids).filter (fun k => dep k == d)) := by
  intro ids
  induction ids with
  | nil => intro done acc h d; simpa using h d
  | cons i rest ih =>
    intro done acc h d
    have hstep := fun d2 => pushGroup_char acc dep done i h d2
    have := ih (done ++ [i]) (pushGroup acc (dep i) i) hstep d
    simpa [List.append_assoc] using this

theorem groupByDepth_char (t : ConversationTree) (d : Nat) :
    mGet (groupByDepth t) d =
      listOpt ((t.nodes.map (fun p => p.2.id)).filter (fun k => nodeDepth t k == d)) := by
  have hfold : groupByDepth t =
      (t.nodes.map (fun p => p.2.id)).foldl
        (fun g i => pushGroup g (nodeDepth t i) i) [] := by
    rw [groupByDepth, List.foldl_map]
  rw [hfold]
  have h0 : ∀ d2, mGet ([] : List (Nat × List String)) d2 =
      listOpt (([] : List String).filter (fun k => nodeDepth t k == d2)) := by
    intro d2; simp [mGet, listOpt]
  simpa using pushGroup_fold_char (nodeDepth t) (t.nodes.map (fun p => p.2.id)) [] [] h0 d

theorem pushGroup_keys_nodup (acc : List (Nat × List String)) (d : Nat) (i : String)
    (h : (acc.map Prod.fst).Nodup) : ((pushGroup acc d i).map Prod.fst).Nodup := by
  unfold pushGroup
  cases hacc : mGet acc d with
  | none =>
    rw [mSet_map_fst_not_mem _ _ _ ((mGet_none_iff _ _).mp hacc)]
    simp only [List.nodup_append, List.nodup_cons]
    exact ⟨h, by simp, by
      intro a ha hb
      simp only [List.mem_singleton] at hb
      exact (mGet_none_iff _ _).mp hacc (hb ▸ ha)⟩
  | some l =>
    rw [mSet_map_fst_mem _ _ _ (mem_of_mGet_some hacc)]
    exact h

theorem groupByDepth_keys_nodup (t : ConversationTree) :
    ((groupByDepth t).map Prod.fst).Nodup := by
  rw [groupByDepth]
  have : ∀ (l : List (String × ConversationNode)) (acc : List (Nat × List String)),
      (acc.map Prod.fst).Nodup →
      ((l.foldl (fun groups p => pushGroup groups (nodeDepth t p.2.id) p.2.id) acc).map
        Prod.fst).Nodup := by
    intro l
    induction l with
    | nil => intro acc h; exact h
    | cons p rest ih =>
      intro acc h
      exact ih _ (pushGroup_keys_nodup acc _ _ h)
  exact this t.nodes [] (by simp)

theorem placeRow_not_mem (d : Nat) (id : String) :
    ∀ (l : List String) (i : Nat) (pos : List (String × Coord)), id ∉ l →
      mGet (placeRow d i l pos) id = mGet pos id := by
  intro l
  induction l with
  | nil => intro i pos _; rfl
  | cons x rest ih =>
    intro i pos h
    simp only [List.mem_cons, not_or] at h
    show mGet (placeRow d (i + 1) rest (mSet pos x (posAt d i))) id = mGet pos id
    rw [ih (i + 1) _ h.2, mGet_mSet_ne _ _ _ _ h.1]

theorem placeRow_mem (d : Nat) (id : String) :
    ∀ (l : List String) (i : Nat) (pos : List (String × Coord)),
      l.Nodup → id ∈ l →
      mGet (placeRow d i l pos) id = some (posAt d (i + idxOfStr id l)) := by
  intro l
  induction l with
  | nil => intro i pos _ h; simp at h
  | cons x rest ih =>
    intro i pos hnd hmem
    simp only [List.nodup_cons] at hnd
    show mGet (placeRow d (i + 1) rest (mSet pos x (posAt d i))) id = _
    by_cases hx : x == id
    · have hxid : x = id := eq_of_beq hx
      subst hxid
      rw [placeRow_not_mem d x rest (i + 1) _ hnd.1, mGet_mSet_self]
      simp [idxOfStr]
    · have hxid : x ≠ id := by simpa using hx
      have hmem2 : id ∈ rest := by
        rcases List.mem_cons.mp hmem with he | hm
        · exact absurd he.symm hxid
        · exact hm
      rw [ih (i + 1) _ hnd.2 hmem2]
      have hxf : (x == id) = false := by simpa using hx
      have : i + idxOfStr id (x :: rest) = i + 1 + idxOfStr id rest := by
        simp [idxOfStr, hxf]
        omega
      rw [this]

theorem layoutFold_not_mem (groups : List (Nat × List String)) (id : String) :
    ∀ (ds : List Nat) (pos : List (String × Coord)),
      (∀ d ∈ ds, id ∉ groupIdsAt groups d) →
      mGet (ds.foldl (fun positions d => placeRow d 0 (groupIdsAt groups d) positions) pos) id
        = mGet pos id := by
  intro ds
  induction ds with
  | nil => intro pos _; rfl
  | cons d rest ih =>
    intro pos h
    show mGet (rest.foldl _ (placeRow d 0 (groupIdsAt groups d) pos)) id = mGet pos id
    rw [ih _ (fun d2 hd2 => h d2 (List.mem_cons_of_mem d hd2)),
        placeRow_not_mem d id _ 0 pos (h d (List.mem_cons_self d rest))]

theorem listOpt_of_ne_nil {l : List α} (h : l ≠ []) : listOpt l = some l := by
  cases l with
  | nil => exact absurd rfl h
  | cons x xs => rfl

theorem groupIdsAt_char (t : ConversationTree)
    (hids : t.nodes.map (fun p => p.2.id) = t.nodes.map Prod.fst) (d : Nat) :
    groupIdsAt (groupByDepth t) d =
      (t.nodes.map Prod.fst).filter (fun k => nodeDepth t k == d) := by
  have hchar := groupByDepth_char t d
  rw [hids] at hchar
  rw [groupIdsAt]
  cases hg : mGet (groupByDepth t) d with
  | none =>
    rw [hg] at hchar
    exact (listOpt_eq_none.mp hchar.symm).symm
  | some l =>
    rw [hg] at hchar
    exact (listOpt_eq_some hchar.symm).symm

theorem layout_not_in_other_group (t : ConversationTree)
    (hids : t.nodes.map (fun p => p.2.id) = t.nodes.map Prod.fst)
    (id : String) (d : Nat) (hd : d ≠ nodeDepth t id) :
    id ∉ groupIdsAt (groupByDepth t) d := by
  intro hmem
  rw [groupIdsAt_char t hids] at hmem
  have := (List.mem_filter.mp hmem).2
  exact hd (eq_of_beq this).symm

theorem layout_formula (t : ConversationTree)
    (hid : ∀ p ∈ t.nodes, p.2.id = p.1)
    (hnd : (t.nodes.map Prod.fst).Nodup)
    (id : String) (n : ConversationNode) (hget : mGet t.nodes id = some n) :
    mGet (calculateSimpleLayout t) id =
      some (posAt (nodeDepth t id) (depthGroupIndex t id)) := by
  have hids : t.nodes.map (fun p => p.2.id) = t.nodes.map Prod.fst :=
    List.map_congr_left hid
  have hmem : id ∈ t.nodes.map Prod.fst := mem_of_mGet_some hget
  have hne : t.nodes ≠ [] := by
    intro h0
    rw [h0] at hget
    exact Option.noConfusion hget
  have hempty : t.nodes.isEmpty = false := by
    cases hl : t.nodes with
    | nil => exact absurd hl hne
    | cons a l => rfl
  have hg0mem : id ∈ (t.nodes.map Prod.fst).filter
      (fun k => nodeDepth t k == nodeDepth t id) :=
    List.mem_filter.mpr ⟨hmem, by simp⟩
  have hg0 : groupIdsAt (groupByDepth t) (nodeDepth t id) =
      (t.nodes.map Prod.fst).filter (fun k => nodeDepth t k == nodeDepth t id) :=
    groupIdsAt_char t hids _
  have hd0key : nodeDepth t id ∈ (groupByDepth t).map Prod.fst := by
    by_contra hno
    have := (mGet_none_iff _ _).mpr hno
    rw [groupIdsAt, this] at hg0
    rw [← hg0] at hg0mem
    exact absurd hg0mem (List.not_mem_nil id)
  have hd0sorted : nodeDepth t id ∈ sortNats ((groupByDepth t).map Prod.fst) :=
    (mem_sortNats _ _).mpr hd0key
  have hsortnd : (sortNats ((groupByDepth t).map Prod.fst)).Nodup :=
    sortNats_nodup _ (groupByDepth_keys_nodup t)
  obtain ⟨l1, l2, hsplit⟩ := List.append_of_mem hd0sorted
  rw [hsplit] at hsortnd
  have hd0l1 : nodeDepth t id ∉ l1 := by
    intro hin
    exact (List.disjoint_of_nodup_append hsortnd) hin (List.mem_cons_self _ _)
  have hd0l2 : nodeDepth t id ∉ l2 := by
    have := (List.nodup_append.mp hsortnd).2.1
    exact (List.nodup_cons.mp this).1
  rw [calculateSimpleLayout, if_neg (by simp [hempty])]
  simp only [hsplit, List.foldl_append, List.foldl_cons]
  rw [layoutFold_not_mem _ _ l2 _
    (fun d hd => layout_not_in_other_group t hids id d
      (fun he => hd0l2 (he ▸ hd)))]
  rw [hg0]
  rw [placeRow_mem _ _ _ 0 _ (hnd.filter _) hg0mem]
  rw [Nat.zero_add]
  have hdgi : depthGroupIndex t id =
      idxOfStr id ((t.nodes.map Prod.fst).filter (fun k => nodeDepth t k == nodeDepth t id)) := by
    rw [depthGroupIndex, hids]
  rw [hdgi]

theorem layout_absent (t : ConversationTree)
    (hid : ∀ p ∈ t.nodes, p.2.id = p.1)
    (id : String) (h : mGet t.nodes id = none) :
    mGet (calculateSimpleLayout t) id = none := by
  have hids : t.nodes.map (fun p => p.2.id) = t.nodes.map Prod.fst :=
    List.map_congr_left hid
  have hnotmem : id ∉ t.nodes.map Prod.fst := (mGet_none_iff _ _).mp h
  by_cases hempty : t.nodes.isEmpty
  · rw [calculateSimpleLayout, if_pos hempty]
    rfl
  · rw [calculateSimpleLayout, if_neg hempty]
    rw [layoutFold_not_mem _ _ _ _ (fun d _ hmem => by
      rw [groupIdsAt_char t hids] at hmem
      exact hnotmem (List.mem_filter.mp hmem).1)]
    rfl

/-!
## Context-builder lemmas
-/

theorem intercalate_pair (a b : String) :
    String.intercalate "\n\n" [a, b] = a ++ "\n\n" ++ b := rfl

theorem renderNodeParts_false (n : ConversationNode) (sel : Option Nat) :
    renderNodeParts n false sel = ["Q: " ++ n.question, "A: " ++ n.answer] := rfl

theorem renderChainParts_concat (sel : Option Nat) :
    ∀ (xs : List ConversationNode) (lastNode : ConversationNode),
      renderChainParts sel (xs ++ [lastNode]) =
        (xs.map (fun n => renderNodeParts n false sel)).flatten ++
          renderNodeParts lastNode true sel := by
  intro xs
  induction xs with
  | nil =>
    intro lastNode
    show renderNodeParts lastNode true sel ++ renderChainParts sel [] = _
    simp [renderChainParts]
  | cons x rest ih =>
    intro lastNode
    show renderNodeParts x (rest ++ [lastNode]).isEmpty sel ++
        renderChainParts sel (rest ++ [lastNode]) = _
    have hne : (rest ++ [lastNode]).isEmpty = false := by cases rest <;> rfl
    rw [hne, ih]
    simp [List.append_assoc]

/-!
## Claim theorems
-/

/-- Claim C1 (code bug): `deleteNode` is meant to cascade to every
descendant, but the recursive child deletions run inside the zustand
producer and are overwritten by the producer's returned snapshot-based
tree.  On the two-node tree (root `a` with child `b`) built through
`addNode`, `deleteNode "a"` leaves `b` in the node mapping, with `b`'s
`parentId` still referencing the removed `"a"` (`"a"` is removed from
the root sequence). -/
theorem deleteNode_leaves_descendant :
    deleteNode exTreeAB "a" = { nodes := [("b", exNodeB)], rootIds := [] } ∧
    exNodeB.parentId = some "a" ∧
    mGet (deleteNode exTreeAB "a").nodes "b" = some exNodeB :=
  ⟨by decide, rfl, by decide⟩

/-- Claim C2 (code bug): the four structural invariants hold on the
two-node tree reached by `addNode`/`addNode`, and are violated after the
reachable call `deleteNode "a"` (the orphaned child's `parentId` dangles,
breaking invariants 1-3). -/
theorem invariants_violated_after_delete :
    invariantsHold exTreeAB = true ∧
    invariantsHold (deleteNode exTreeAB "a") = false :=
  ⟨by decide, by decide⟩

/-- Claim C3, counterexample: `updateNode` merges *every* supplied
field, so a `partialFields` carrying `parentId` changes the node's
`parentId` — here from `some "a"` to `some "z"` on the stored node
`b`. -/
theorem updateNode_changes_parentId :
    (mGet exTreeAB.nodes "b").map (fun n => n.parentId) = some (some "a") ∧
    (mGet (updateNode exTreeAB "b" exParentUpdate).nodes "b").map (fun n => n.parentId) =
      some (some "z") :=
  ⟨by decide, by decide⟩

/-- Claim C3 as amended: for every stored node and every `partialFields`
that does **not** itself supply `id`, `parentId` or `childrenIds`,
`updateNode` leaves those three fields unchanged; and for an unknown id
the whole tree is unchanged. -/
theorem updateNode_structural_frame :
    (∀ (t : ConversationTree) (id : String) (u : NodeUpdates) (n : ConversationNode),
      u.id = none → u.parentId = none → u.childrenIds = none →
      mGet t.nodes id = some n →
      ∃ n2, mGet (updateNode t id u).nodes id = some n2 ∧
        n2.id = n.id ∧ n2.parentId = n.parentId ∧ n2.childrenIds = n.childrenIds) ∧
    (∀ (t : ConversationTree) (id : String) (u : NodeUpdates),
      mGet t.nodes id = none → updateNode t id u = t) := by
  constructor
  · intro t id u n hid hpar hch hget
    refine ⟨applyUpdates n u, ?_, ?_, ?_, ?_⟩
    · simp only [updateNode, hget]
      exact mGet_mSet_self _ _ _
    · simp [applyUpdates, hid]
    · simp [applyUpdates, hpar]
    · simp [applyUpdates, hch]
  · intro t id u h
    simp only [updateNode, h]

/-- Witness for `updateNode_structural_frame` at concrete inputs: an
answer-only update on node `a` of `exTreeAB`, and an unknown id. -/
theorem updateNode_structural_frame_witness :
    (exAnswerUpdate.id = none ∧ exAnswerUpdate.parentId = none ∧
     exAnswerUpdate.childrenIds = none ∧ mGet exTreeAB.nodes "a" = some exNodeAWithB) ∧
    (∃ n2, mGet (updateNode exTreeAB "a" exAnswerUpdate).nodes "a" = some n2 ∧
      n2.id = exNodeAWithB.id ∧ n2.parentId = exNodeAWithB.parentId ∧
      n2.childrenIds = exNodeAWithB.childrenIds) ∧
    (mGet exTreeAB.nodes "zz" = none ∧ updateNode exTreeAB "zz" exAnswerUpdate = exTreeAB) :=
  ⟨⟨rfl, rfl, rfl, by decide⟩,
   updateNode_structural_frame.1 exTreeAB "a" exAnswerUpdate exNodeAWithB rfl rfl rfl (by decide),
   by decide,
   updateNode_structural_frame.2 exTreeAB "zz" exAnswerUpdate (by decide)⟩

/-- Claim C10: `addNode` on a node whose id is already present
overwrites the stored node, and for a parentless node appends the id to
the root sequence again, so the root sequence can hold the same id
twice (no duplicate guard at this entry point). -/
theorem addNode_overwrites_and_duplicates_roots :
    ∀ (t : ConversationTree) (n : ConversationNode),
      (mGet t.nodes n.id).isSome = true → n.parentId = none →
      mGet (addNode t n).nodes n.id = some n ∧
      (addNode t n).rootIds = t.rootIds ++ [n.id] ∧
      (n.id ∈ t.rootIds → 2 ≤ ((addNode t n).rootIds).count n.id) := by
  intro t n _ hp
  have haddn : addNode t n =
      { nodes := mSet t.nodes n.id n, rootIds := t.rootIds ++ [n.id] } := by
    simp only [addNode, hp]
  refine ⟨?_, ?_, ?_⟩
  · rw [haddn]
    exact mGet_mSet_self _ _ _
  · rw [haddn]
  · intro hmem
    rw [haddn]
    simp only [List.count_append]
    have h1 : 0 < t.rootIds.count n.id := List.count_pos_iff.mpr hmem
    have h2 : List.count n.id [n.id] = 1 := by simp
    omega

/-- Witness for `addNode_overwrites_and_duplicates_roots`: re-adding the
root `a` to the one-node tree duplicates `"a"` in the root sequence. -/
theorem addNode_overwrites_witness :
    ((mGet (addNode initialTree exNodeA).nodes exNodeA.id).isSome = true ∧
     exNodeA.parentId = none) ∧
    (mGet (addNode (addNode initialTree exNodeA) exNodeA).nodes exNodeA.id = some exNodeA ∧
     (addNode (addNode initialTree exNodeA) exNodeA).rootIds =
       (addNode initialTree exNodeA).rootIds ++ [exNodeA.id] ∧
     (exNodeA.id ∈ (addNode initialTree exNodeA).rootIds →
       2 ≤ ((addNode (addNode initialTree exNodeA) exNodeA).rootIds).count exNodeA.id)) :=
  ⟨⟨by decide, rfl⟩,
   addNode_overwrites_and_duplicates_roots (addNode initialTree exNodeA) exNodeA
     (by decide) rfl⟩

/-- Claim C4: with no selected section, a parent node that itself has a
parent restricts the context to the last chain node's Q/A pair; a root
parent with chain `[A]` yields `A`'s full Q/A; an empty chain yields the
empty string. -/
theorem buildContext_restriction :
    (∀ (p : ConversationNode) (g : String) (chain : List ConversationNode),
      p.parentId = some g → chain ≠ [] →
      ∃ lastNode, chain.getLast? = some lastNode ∧
        buildContext (some p) chain none =
          "Q: " ++ lastNode.question ++ "\n\n" ++ ("A: " ++ lastNode.answer)) ∧
    (∀ a : ConversationNode, a.parentId = none →
      buildContext (some a) [a] none =
        "Q: " ++ a.question ++ "\n\n" ++ ("A: " ++ a.answer)) ∧
    (∀ (p : Option ConversationNode) (sel : Option Nat), buildContext p [] sel = "") := by
  refine ⟨?_, ?_, ?_⟩
  · intro p g chain hp hne
    refine ⟨chain.getLast hne, List.getLast?_eq_getLast chain hne, ?_⟩
    have hie : chain.isEmpty = false := by
      cases chain with
      | nil => exact absurd rfl hne
      | cons _ _ => rfl
    have hic : isContinuingFromChild (some p) none = true := by
      simp [isContinuingFromChild, hp]
    simp only [buildContext, hie, hic, List.getLast?_eq_getLast chain hne, if_true,
      Bool.false_eq_true, if_false]
    exact intercalate_pair _ _
  · intro a hp
    have hic : isContinuingFromChild (some a) none = false := by
      simp [isContinuingFromChild, hp]
    simp only [buildContext, List.isEmpty_cons, hic, Bool.false_eq_true, if_false]
    show String.intercalate "\n\n" (renderNodeParts a true none ++ renderChainParts none []) = _
    show String.intercalate "\n\n" ["Q: " ++ a.question, "A: " ++ a.answer] = _
    exact intercalate_pair _ _
  · intro p sel
    rfl

/-- Witness for `buildContext_restriction`: the two-node chain
`[A, B]` continuing from the non-root `B`, plus the root and empty
cases folded in through the theorem's parts. -/
theorem buildContext_restriction_witness :
    (exNodeB.parentId = some "a" ∧ ([exNodeA, exNodeB] : List ConversationNode) ≠ []) ∧
    (∃ lastNode, ([exNodeA, exNodeB] : List ConversationNode).getLast? = some lastNode ∧
      buildContext (some exNodeB) [exNodeA, exNodeB] none =
        "Q: " ++ lastNode.question ++ "\n\n" ++ ("A: " ++ lastNode.answer)) ∧
    (exNodeA.parentId = none ∧
      buildContext (some exNodeA) [exNodeA] none =
        "Q: " ++ exNodeA.question ++ "\n\n" ++ ("A: " ++ exNodeA.answer)) ∧
    buildContext (some exNodeA) [] none = "" :=
  ⟨⟨rfl, by simp⟩,
   buildContext_restriction.1 exNodeB "a" [exNodeA, exNodeB] rfl (by simp),
   ⟨rfl, buildContext_restriction.2.1 exNodeA rfl⟩,
   buildContext_restriction.2.2 (some exNodeA) none⟩

/-- Claim C6: for a well-formed tree (nodes stored under their own ids,
no duplicate keys) `calculateAutoLayout` returns a position for exactly
the node ids present; the node at depth `d` (`nodeDepth`: `parentId`
hops until a parentless node) and index `i` in its depth group
(`depthGroupIndex`: insertion order across the whole depth) gets
`x = 300 + i*(400+500) + d*(400+100)` and `y = 100 + d*350`; and the
function is deterministic (it is pure, so two calls on the same tree are
definitionally the same mapping). -/
theorem calculateAutoLayout_spec (t : ConversationTree)
    (hid : ∀ p ∈ t.nodes, p.2.id = p.1)
    (hnd : (t.nodes.map Prod.fst).Nodup) :
    (∀ id : String, (mGet (calculateAutoLayout t) id).isSome = (mGet t.nodes id).isSome) ∧
    (∀ (id : String) (n : ConversationNode), mGet t.nodes id = some n →
      mGet (calculateAutoLayout t) id =
        some { x := 300 + depthGroupIndex t id * (400 + 500) +
                     nodeDepth t id * (400 + 100),
               y := 100 + nodeDepth t id * 350 }) ∧
    calculateAutoLayout t = calculateAutoLayout t := by
  have hauto : calculateAutoLayout t = calculateSimpleLayout t := by
    by_cases he : t.nodes.isEmpty
    · rw [calculateAutoLayout, if_pos he, calculateSimpleLayout, if_pos he]
    · rw [calculateAutoLayout, if_neg he]
  refine ⟨?_, ?_, rfl⟩
  · intro id
    cases hget : mGet t.nodes id with
    | none =>
      rw [hauto, layout_absent t hid id hget]
      rfl
    | some n =>
      rw [hauto, layout_formula t hid hnd id n hget]
      rfl
  · intro id n hget
    rw [hauto, layout_formula t hid hnd id n hget]
    rfl

/-- Witness for `calculateAutoLayout_spec`: the three-node tree (root
`a`, children `b` and `c`), evaluated at node `c`. -/
theorem calculateAutoLayout_spec_witness :
    ((∀ p ∈ exTreeABC.nodes, p.2.id = p.1) ∧ (exTreeABC.nodes.map Prod.fst).Nodup ∧
      mGet exTreeABC.nodes "c" = some exNodeC) ∧
    mGet (calculateAutoLayout exTreeABC) "c" =
      some { x := 300 + depthGroupIndex exTreeABC "c" * (400 + 500) +
                   nodeDepth exTreeABC "c" * (400 + 100),
             y := 100 + nodeDepth exTreeABC "c" * 350 } :=
  ⟨⟨by decide, by decide, by decide⟩,
   (calculateAutoLayout_spec exTreeABC (by decide) (by decide)).2.1 "c" exNodeC (by decide)⟩

/-- Claim C5 as amended: when a `selectedSectionIndex` is supplied the
full chain is rendered; earlier chain nodes contribute their full Q/A
in order; for the last node the sections list is the cached
`answerSections` when present **and non-empty**, otherwise
`parseAnswerIntoSections answer`; an in-range index substitutes that
single section's text, an out-of-range index falls back to the full
answer. -/
theorem buildContext_section_substitution :
    ∀ (parentNode : Option ConversationNode) (xs : List ConversationNode)
      (lastNode : ConversationNode) (idx : Nat),
      (idx < (sectionsForNode lastNode).length →
        ∃ sec, (sectionsForNode lastNode)[idx]? = some sec ∧
          buildContext parentNode (xs ++ [lastNode]) (some idx) =
            String.intercalate "\n\n"
              ((xs.map (fun n => ["Q: " ++ n.question, "A: " ++ n.answer])).flatten ++
               ["Q: " ++ lastNode.question, "A (selected section): " ++ sec.text])) ∧
      ((sectionsForNode lastNode).length ≤ idx →
        buildContext parentNode (xs ++ [lastNode]) (some idx) =
          String.intercalate "\n\n"
            ((xs.map (fun n => ["Q: " ++ n.question, "A: " ++ n.answer])).flatten ++
             ["Q: " ++ lastNode.question, "A: " ++ lastNode.answer])) := by
  intro parentNode xs lastNode idx
  have hie : (xs ++ [lastNode]).isEmpty = false := by cases xs <;> rfl
  have hic : isContinuingFromChild parentNode (some idx) = false := by
    cases parentNode <;> rfl
  have hbc : buildContext parentNode (xs ++ [lastNode]) (some idx) =
      String.intercalate "\n\n" (renderChainParts (some idx) (xs ++ [lastNode])) := by
    simp only [buildContext, hie, hic, Bool.false_eq_true, if_false]
  have hmap : xs.map (fun n => renderNodeParts n false (some idx)) =
      xs.map (fun n => ["Q: " ++ n.question, "A: " ++ n.answer]) :=
    List.map_congr_left (fun n _ => renderNodeParts_false n (some idx))
  constructor
  · intro hlt
    refine ⟨(sectionsForNode lastNode)[idx], List.getElem?_eq_getElem hlt, ?_⟩
    have hparts : renderNodeParts lastNode true (some idx) =
        ["Q: " ++ lastNode.question,
         "A (selected section): " ++ ((sectionsForNode lastNode)[idx]).text] := by
      simp [renderNodeParts, List.getElem?_eq_getElem hlt]
    rw [hbc, renderChainParts_concat, hmap, hparts]
  · intro hge
    have hsec : (sectionsForNode lastNode)[idx]? = none := by
      rw [List.getElem?_eq_none_iff]
      exact hge
    have hparts : renderNodeParts lastNode true (some idx) =
        ["Q: " ++ lastNode.question, "A: " ++ lastNode.answer] := by
      simp [renderNodeParts, hsec]
    rw [hbc, renderChainParts_concat, hmap, hparts]

/-- Claim C5, counterexample to the claim as stated: on a node whose
cached `answerSections` is present but empty (`some []`), index `0` is
out of range of the cache, so the claim prescribes the full answer --
but the code recomputes the sections from the answer and renders the
first recomputed section instead. -/
theorem buildContext_empty_cache_counterexample :
    exEmptyCacheNode.answerSections = some [] ∧
    buildContext (some exEmptyCacheNode) [exEmptyCacheNode] (some 0) =
      "Q: q1\n\nA (selected section): foo" ∧
    "Q: q1\n\nA (selected section): foo" ≠ "Q: q1\n\nA: foo\n\nbar" :=
  ⟨rfl, by decide, by decide⟩

/-- Witness for `buildContext_section_substitution`: chain `[A, M]`
where `M` caches sections `foo`/`bar`/`baz`, selected index `1`. -/
theorem buildContext_section_substitution_witness :
    (1 < (sectionsForNode exSectionsNode).length) ∧
    (∃ sec, (sectionsForNode exSectionsNode)[1]? = some sec ∧
      buildContext (some exNodeA) ([exNodeA] ++ [exSectionsNode]) (some 1) =
        String.intercalate "\n\n"
          (([exNodeA].map (fun n => ["Q: " ++ n.question, "A: " ++ n.answer])).flatten ++
           ["Q: " ++ exSectionsNode.question, "A (selected section): " ++ sec.text])) :=
  ⟨by decide,
   (buildContext_section_substitution (some exNodeA) [exNodeA] exSectionsNode 1).1 (by decide)⟩

/-- Claim C7 (code bug): `saveCurrentSession` stores the session's node
container as an **array** of `[id, node]` pairs, while `exportSession`
calls `.entries()` on it as if it were a `Map`.  On an array,
`entries()` yields `[index, element]` pairs, so the exported document
carries `[[0, ["a", node]], ...]` and `importSession` reconstructs a
node map keyed by the numeric index `0` whose value is the whole
`[id, node]` pair -- not a map from `"a"` to the node.  The round trip
is therefore not structurally identical for sessions stored through the
normal save path. -/
theorem export_import_mangles_nodes :
    (mGet exStoreSaved.sessions "s1").map (fun sess => sess.tree.nodes) =
      some (SessNodes.jsArr [("a", exNodeA)]) ∧
    (match exportSession "s1" 6 exStoreSaved with
     | Except.ok doc =>
       (match importSession (some doc) "s2" 7 exStoreSaved with
        | Except.ok r => (mGet r.2.sessions "s2").map (fun sess => sess.tree.nodes)
        | Except.error _ => none)
     | Except.error _ => none) =
      some (SessNodes.jsonMap [(Json.num 0, Json.arr [Json.str "a", nodeToJson exNodeA])]) :=
  ⟨rfl, rfl⟩

/-- Claim C9 (code bug): `deleteSession` on the active session does
create a replacement through `createNewSession` and makes it active,
but it then commits `sessions` built from its **pre-call snapshot**
minus the deleted id, dropping the replacement from the mapping.  The
deleted id is absent afterwards, yet the active session id (`"s2"`)
refers to no stored session. -/
theorem deleteSession_dangling_active :
    (deleteSession "s1" "s2" "g" 5 exStoreDel).currentSessionId = some "s2" ∧
    mGet (deleteSession "s1" "s2" "g" 5 exStoreDel).sessions "s2" = none ∧
    mGet (deleteSession "s1" "s2" "g" 5 exStoreDel).sessions "s1" = none :=
  ⟨rfl, rfl, rfl⟩

/-- Claim C8: `importSession` throws for unparseable input (`none`) and
for any parsed document without a truthy `session` carrying a truthy
`tree`, and on every error the session mapping is untouched (in this
embedding a thrown path returns `Except.error` and by construction
leaves the state unmodified, matching the source where every `throw`
precedes the store write); every successful import registers exactly one
session under the generated id (fresh by assumption on the id
generator), preserving all other entries; `exportSession` on an unknown
id throws `NotFound`. -/
theorem import_export_error_handling :
    (∀ (s : StoreState) (genId : String) (now : Nat),
      importSession none genId now s = Except.error StoreErr.parseError) ∧
    (∀ (s : StoreState) (d : Json) (genId : String) (now : Nat),
      (truthyOpt (jGet d "session") = false ∨
       (∃ sess, jGet d "session" = some sess ∧ truthyOpt (jGet sess "tree") = false)) →
      ∃ e, importSession (some d) genId now s = Except.error e) ∧
    (∀ (s : StoreState) (input : Option Json) (genId : String) (now : Nat)
       (newId : String) (s2 : StoreState),
      importSession input genId now s = Except.ok (newId, s2) →
      mGet s.sessions genId = none →
      newId = genId ∧ mGet s.sessions newId = none ∧
      (∃ sess, mGet s2.sessions newId = some sess) ∧
      (∀ k, k ≠ genId → mGet s2.sessions k = mGet s.sessions k)) ∧
    (∀ (s : StoreState) (sid : String) (now : Nat),
      mGet s.sessions sid = none → exportSession sid now s = Except.error StoreErr.notFound) := by
  refine ⟨?_, ?_, ?_, ?_⟩
  · intro s genId now
    rfl
  · intro s d genId now h
    cases d with
    | null => exact ⟨StoreErr.typeError, rfl⟩
    | bool b => exact ⟨StoreErr.invalidFormat, rfl⟩
    | num n => exact ⟨StoreErr.invalidFormat, rfl⟩
    | str st => exact ⟨StoreErr.invalidFormat, rfl⟩
    | arr l => exact ⟨StoreErr.invalidFormat, rfl⟩
    | obj fs =>
      rcases h with h | ⟨sess, hsess, htree⟩
      · exact ⟨StoreErr.invalidFormat, by simp [importSession, h]⟩
      · cases htv : truthyOpt (jGet (Json.obj fs) "session") with
        | false => exact ⟨StoreErr.invalidFormat, by simp [importSession, htv]⟩
        | true => exact ⟨StoreErr.invalidFormat, by simp [importSession, htv, hsess, htree]⟩
  · intro s input genId now newId s2 heq hfresh
    cases input with
    | none => simp [importSession] at heq
    | some d =>
      cases d with
      | null => simp [importSession] at heq
      | bool b => simp [importSession, jGet, truthyOpt] at heq
      | num n => simp [importSession, jGet, truthyOpt] at heq
      | str st => simp [importSession, jGet, truthyOpt] at heq
      | arr l => simp [importSession, jGet, truthyOpt] at heq
      | obj fs =>
        simp only [importSession] at heq
        split at heq
        · exact absurd heq (by simp)
        · split at heq
          · exact absurd heq (by simp)
          · split at heq
            · exact absurd heq (by simp)
            · simp only [Except.ok.injEq, Prod.mk.injEq] at heq
              obtain ⟨h1, h2⟩ := heq
              subst h1
              subst h2
              exact ⟨rfl, hfresh, ⟨_, mGet_mSet_self _ _ _⟩,
                fun k hk => mGet_mSet_ne _ _ _ _ hk⟩
  · intro s sid now h
    simp only [exportSession, h]

/-- Witness for `import_export_error_handling`: unparseable input, a
document lacking `tree`, a successful minimal import under fresh id
`"f3"`, and an export of an unknown id, all on the concrete store
`exStoreDel`. -/
theorem import_export_error_handling_witness :
    (importSession none "f1" 0 exStoreDel = Except.error StoreErr.parseError) ∧
    ((∃ sess, jGet exDocNoTree "session" = some sess ∧
        truthyOpt (jGet sess "tree") = false) ∧
     (∃ e, importSession (some exDocNoTree) "f2" 1 exStoreDel = Except.error e)) ∧
    ((importSession (some exDocMin) "f3" 2 exStoreDel =
        Except.ok ("f3", exImportedState) ∧ mGet exStoreDel.sessions "f3" = none) ∧
     ("f3" = "f3" ∧ mGet exStoreDel.sessions "f3" = none ∧
      (∃ sess, mGet exImportedState.sessions "f3" = some sess) ∧
      (∀ k, k ≠ "f3" → mGet exImportedState.sessions k = mGet exStoreDel.sessions k))) ∧
    (mGet exStoreDel.sessions "zz" = none ∧
     exportSession "zz" 3 exStoreDel = Except.error StoreErr.notFound) :=
  ⟨import_export_error_handling.1 exStoreDel "f1" 0,
   ⟨⟨Json.obj [("name", Json.str "x")], rfl, rfl⟩,
    import_export_error_handling.2.1 exStoreDel exDocNoTree "f2" 1
      (Or.inr ⟨Json.obj [("name", Json.str "x")], rfl, rfl⟩)⟩,
   ⟨⟨rfl, rfl⟩,
    import_export_error_handling.2.2.1 exStoreDel (some exDocMin) "f3" 2 "f3"
      exImportedState rfl rfl⟩,
   ⟨rfl, import_export_error_handling.2.2.2 exStoreDel "zz" 3 rfl⟩⟩

/-- Sanity check of the embedded segmentation on the paragraph branch. -/
example : parseAnswerIntoSections "foo\n\nbar" =
    [{ id := "section-0", text := "foo", index := 0 },
     { id := "section-1", text := "bar", index := 1 }] := by decide
